import Mathlib

set_option maxHeartbeats 1000000
set_option maxRecDepth 8000

/-!
Shallow embedding of the flashtools `cbfs` reader (src/cbfs.c) and proofs about
its header-location, file-table-walk, selection and extraction logic.

Modelling conventions:
* Physical memory is a total function from address to byte (`Mem`); the external
  collaborators `copy_physical` / `map_physical` simply expose those bytes, so a
  C read of `n` bytes at address `a` is modelled as reads of `m a, …, m (a+n-1)`.
* The host is little-endian x86 (util.c uses the x86 `mfence` instruction), so a
  raw `copy_physical` into an integer is a little-endian read and `ntohl` turns
  the four bytes into a big-endian value.
* uint32_t / uint64_t arithmetic is Nat arithmetic reduced `% 2^32` / `% 2^64`
  exactly where C wraps.
* The unbounded loop `while (off < end)` is modelled with explicit fuel; the
  `write(2)` system call is modelled by an oracle giving each call's return value.
-/

namespace Flashtools

/-- Physical memory: a byte (reduced mod 256 at read time) for every address. -/
abbrev Mem := Nat → Nat

/-- 2^32: wrap modulus of uint32_t arithmetic, also the top of the address space. -/
abbrev U32 : Nat := 4294967296

/-- 2^64: wrap modulus of uint64_t / size_t arithmetic. -/
abbrev U64 : Nat := 18446744073709551616

/-- Top of the 32-bit physical address space: the C constant end = 0x100000000. -/
abbrev endAddr : Nat := U32

/-- Byte fetched at an address. -/
def readByte (m : Mem) (a : Nat) : Nat := m a % 256

/-- Little-endian 32-bit read: copy_physical of 4 raw bytes into an integer on the
little-endian host, with no byte swap. -/
def readLE32 (m : Mem) (a : Nat) : Nat :=
  readByte m a + 256 * readByte m (a + 1) + 65536 * readByte m (a + 2) +
    16777216 * readByte m (a + 3)

/-- Big-endian 32-bit read: copy_physical followed by ntohl on the little-endian host. -/
def readBE32 (m : Mem) (a : Nat) : Nat :=
  16777216 * readByte m a + 65536 * readByte m (a + 1) + 256 * readByte m (a + 2) +
    readByte m (a + 3)

/-- Value of the int32_t header_delta: the 4 bytes at end-4 read in native (little-endian)
byte order, interpreted in two's complement. -/
def headerDelta (m : Mem) : Int :=
  let u := readLE32 m (endAddr - 4)
  if u < 2147483648 then (u : Int) else (u : Int) - (U32 : Int)

/-- header_off = end + header_delta in uint64 arithmetic (delta ≥ -2^31 keeps it positive). -/
def headerOff (m : Mem) : Nat := ((endAddr : Int) + headerDelta m).toNat

/-- Decoded struct cbfs_header (all fields already byte-swapped from big-endian). -/
structure cbfs_header where
  magic : Nat
  version : Nat
  romsize : Nat
  bootblocksize : Nat
  align : Nat
  offset : Nat
  architecture : Nat
deriving DecidableEq

/-- Decode of the 28 meaningful header bytes at address h, each field ntohl-swapped. -/
def readHeader (m : Mem) (h : Nat) : cbfs_header :=
  { magic := readBE32 m h
    version := readBE32 m (h + 4)
    romsize := readBE32 m (h + 8)
    bootblocksize := readBE32 m (h + 12)
    align := readBE32 m (h + 16)
    offset := readBE32 m (h + 20)
    architecture := readBE32 m (h + 24) }

/-- Decoded fixed part of struct cbfs_file (after the 8 magic bytes). -/
structure cbfs_file where
  len : Nat
  type : Nat
  attributes_offset : Nat
  offset : Nat
deriving DecidableEq

/-- Decode of the fixed 24-byte record header at address p: the four u32 fields
after the 8-byte magic, each ntohl-swapped. -/
def readFile (m : Mem) (p : Nat) : cbfs_file :=
  { len := readBE32 m (p + 8)
    type := readBE32 m (p + 12)
    attributes_offset := readBE32 m (p + 16)
    offset := readBE32 m (p + 20) }

/-- The 8 magic bytes of a record. -/
def fileMagicBytes (m : Mem) (p : Nat) : List Nat :=
  [readByte m p, readByte m (p + 1), readByte m (p + 2), readByte m (p + 3),
   readByte m (p + 4), readByte m (p + 5), readByte m (p + 6), readByte m (p + 7)]

/-- strncmp(file.magic, "LARCHIVE", 8) == 0. Since "LARCHIVE" has no NUL among its
8 characters, the comparison succeeds exactly when all 8 bytes match. -/
def fileMagicOk (m : Mem) (p : Nat) : Bool :=
  fileMagicBytes m p == [76, 65, 82, 67, 72, 73, 86, 69]

/-- name_size = file.offset - sizeof(file): size_t (uint64) subtraction of 24,
wrapping when file.offset < 24. -/
def nameSize (f : cbfs_file) : Nat := (f.offset + (U64 - 24)) % U64

/-- NUL-terminated byte string starting at address a, scanning at most fuel bytes
(the semantics of printf("%s", …)). -/
def cStr (m : Mem) (a : Nat) : Nat → List Nat
  | 0 => []
  | fuel + 1 =>
    let b := readByte m a
    if b = 0 then [] else b :: cStr m (a + 1) fuel

/-- Byte i of a NUL-terminated C string modelled as its list of bytes before the NUL. -/
def strByte (t : List Nat) (i : Nat) : Nat := (t.get? i).getD 0

/-- strncmp(s1 at address a in memory, s2 = t, n) == 0: bytewise comparison that
stops at the first difference, at a NUL in either string, or after n bytes. -/
def strncmpEq (m : Mem) (a : Nat) (t : List Nat) : Nat → Bool
  | 0 => true
  | n + 1 =>
    let ca := readByte m a
    let cb := strByte t 0
    if ca ≠ cb then false
    else if ca = 0 then true
    else strncmpEq m (a + 1) (t.drop 1) n

/-- inc = (align + (file.offset + file.len) - 1) & (~(align-1)), computed in uint32
arithmetic exactly as in the C (s is the already-wrapped offset+len sum). -/
def incOf (align s : Nat) : Nat :=
  ((align + s + (U32 - 1)) % U32) &&& ((U32 - 1) ^^^ ((align + (U32 - 1)) % U32))

/-- The uint32 sum file.offset + file.len of the record decoded at p. -/
def sumAt (m : Mem) (p : Nat) : Nat :=
  ((readFile m p).offset + (readFile m p).len) % U32

/-- Cursor increment computed for the record decoded at p. -/
def incAt (m : Mem) (align p : Nat) : Nat := incOf align (sumAt m p)

/-- The type filter: !do_type || (do_type && file.type == cbfs_file_type). -/
def typePass (typeF : Option Nat) (t : Nat) : Bool :=
  match typeF with
  | none => true
  | some ty => t == ty

/-- Walk configuration: memory, the selector flags resolved from the CLI, and the
write(2) oracle (return value of the k-th write call). -/
structure WalkCfg where
  mem : Mem
  doList : Bool
  target : Option (List Nat)
  typeF : Option Nat
  oracle : Nat → Int

/-- The read-mode first-match test for the record at off (cbfs.c lines 206-208):
type filter and strncmp(name, filename, name_size) == 0, the comparison length
being the current record's declared name capacity. -/
def readMatchAt (cfg : WalkCfg) (off : Nat) : Bool :=
  match cfg.target with
  | some t =>
    typePass cfg.typeF (readFile cfg.mem off).type &&
      strncmpEq cfg.mem (off + 24) t (nameSize (readFile cfg.mem off))
  | none => false

/-- Name of the record at p as printed by list mode: the NUL-terminated bytes at
p + sizeof(struct cbfs_file). -/
def nameAt (m : Mem) (p : Nat) : List Nat := cStr m (p + 24) U32

/-- List-mode output update for one record (cbfs.c lines 201-204). -/
def listUpd (cfg : WalkCfg) (off : Nat) (acc : List (List Nat)) : List (List Nat) :=
  if cfg.doList && typePass cfg.typeF (readFile cfg.mem off).type then
    acc ++ [nameAt cfg.mem off]
  else acc

/-- The file.len payload bytes starting at address a. -/
def payloadBytes (m : Mem) (a len : Nat) : List Nat :=
  (List.range len).map (fun i => readByte m (a + i))

/-- The write loop (cbfs.c lines 221-235). oracle k is the return value of the k-th
write call; POSIX guarantees a successful write transfers at most the requested
count, so the transferred amount is min (oracle k) (remaining). Returns the bytes
transferred in order and whether the loop completed (false = some call returned
a non-positive value, which the C treats as fatal). -/
def writeGo (oracle : Nat → Int) (data : List Nat) : Nat → Nat → Nat →
    List Nat × Bool
  | _, off, 0 => ([], decide (data.length ≤ off))
  | k, off, fuel + 1 =>
    if data.length ≤ off then ([], true)
    else if oracle k ≤ 0 then ([], false)
    else
      ((data.drop off).take (min (oracle k).toNat (data.length - off)) ++
        (writeGo oracle data (k + 1)
          (off + min (oracle k).toNat (data.length - off)) fuel).1,
       (writeGo oracle data (k + 1)
          (off + min (oracle k).toNat (data.length - off)) fuel).2)

/-- Error classification of a run, following the spec's taxonomy. -/
inductive ErrKind where
  | noErr
  | headerNotFound
  | truncated
  | writeFail
  | targetNotFound
deriving DecidableEq

/-- Observable outcome of a run: process exit code, the list-mode lines printed to
stdout, the payload bytes written to stdout, the error kind, and the file name in
the target-not-found message (if any). -/
structure RunResult where
  exitCode : Nat
  listed : List (List Nat)
  written : List Nat
  err : ErrKind
  errName : Option (List Nat)
deriving DecidableEq

/-- Code after the loop (cbfs.c lines 256-261): do_read == 1 means a read was
requested and never satisfied. -/
def finishWalk (cfg : WalkCfg) (acc : List (List Nat)) : RunResult :=
  match cfg.target with
  | some t => ⟨1, acc, [], .targetNotFound, some t⟩
  | none => ⟨0, acc, [], .noErr, none⟩

/-- The payload of the record at off, as read by the write loop. -/
def payloadAt (m : Mem) (off : Nat) : List Nat :=
  payloadBytes m (off + (readFile m off).offset) (readFile m off).len

/-- Result of running the write loop on the payload of the record at off. -/
def writeOut (cfg : WalkCfg) (off : Nat) : List Nat × Bool :=
  writeGo cfg.oracle (payloadAt cfg.mem off) 0 0 ((payloadAt cfg.mem off).length + 1)

/-- The matched-record branch (cbfs.c lines 210-242): bounds check against the ROM
end, then the write loop; success breaks the walk with do_read = 2 (exit 0). -/
def matchResult (cfg : WalkCfg) (off : Nat) (acc' : List (List Nat)) :
    Option RunResult :=
  if endAddr < off + (readFile cfg.mem off).offset + (readFile cfg.mem off).len then
    some ⟨1, acc', [], .truncated, none⟩
  else if (writeOut cfg off).2 then some ⟨0, acc', (writeOut cfg off).1, .noErr, none⟩
  else some ⟨1, acc', (writeOut cfg off).1, .writeFail, none⟩

/-- The file-table walk (cbfs.c lines 170-254) with explicit fuel; al is
header.align. none means the fuel ran out before the loop finished. -/
def walkFuel (cfg : WalkCfg) (al : Nat) : Nat → Nat → List (List Nat) → Option RunResult
  | 0, _, _ => none
  | fuel + 1, off, acc =>
    if off < endAddr then
      if fileMagicOk cfg.mem off then
        if readMatchAt cfg off then matchResult cfg off (listUpd cfg off acc)
        else walkFuel cfg al fuel (off + incAt cfg.mem al off) (listUpd cfg off acc)
      else some (finishWalk cfg acc)
    else some (finishWalk cfg acc)

/-- Offsets at which the loop body performs the fixed 24-byte record decode
(the memcpy at cbfs.c line 175), in order; this includes the final sentinel
iteration, whose bytes are read before the magic test. -/
def decodedOffs (cfg : WalkCfg) (al : Nat) : Nat → Nat → List Nat
  | 0, _ => []
  | fuel + 1, off =>
    if off < endAddr then
      if fileMagicOk cfg.mem off then
        if readMatchAt cfg off then [off]
        else off :: decodedOffs cfg al fuel (off + incAt cfg.mem al off)
      else [off]
    else []

/-- Offsets of the records (valid LARCHIVE magic) the walk visits, in order. -/
def visitedOffs (cfg : WalkCfg) (al : Nat) : Nat → Nat → List Nat
  | 0, _ => []
  | fuel + 1, off =>
    if off < endAddr then
      if fileMagicOk cfg.mem off then
        if readMatchAt cfg off then [off]
        else off :: visitedOffs cfg al fuel (off + incAt cfg.mem al off)
      else []
    else []

/-- The list-mode lines produced by a walk: the names of the visited records that
pass the type filter, in on-disk order (empty when list mode is off). -/
def listedSpec (cfg : WalkCfg) (al fuel off : Nat) : List (List Nat) :=
  ((visitedOffs cfg al fuel off).filter
    (fun a => cfg.doList && typePass cfg.typeF (readFile cfg.mem a).type)).map
    (nameAt cfg.mem)

/-- Start of the file table: end - romsize + header.offset (cbfs.c lines 167-168). -/
def startOff (m : Mem) : Nat :=
  endAddr - (readHeader m (headerOff m)).romsize + (readHeader m (headerOff m)).offset

/-- The whole run after CLI parsing (cbfs.c lines 121-261): locate the header via
the footer pointer, reject on bad magic, otherwise walk the file table with
align = header.align. -/
def cbfsMain (cfg : WalkCfg) (fuel : Nat) : Option RunResult :=
  if (readHeader cfg.mem (headerOff cfg.mem)).magic = 0x4F524243 then
    walkFuel cfg (readHeader cfg.mem (headerOff cfg.mem)).align fuel (startOff cfg.mem) []
  else some ⟨1, [], [], .headerNotFound, none⟩

/-- Whether a run outcome is the header-rejection exit. -/
def isHeaderReject : Option RunResult → Bool
  | some r => r.err == ErrKind.headerNotFound
  | none => false

/-- Memory built from a list of (base address, bytes) regions; bytes elsewhere are 0. -/
def memRegions (rs : List (Nat × List Nat)) : Mem := fun a =>
  ((rs.findSome? (fun r =>
    if r.1 ≤ a ∧ a < r.1 + r.2.length then r.2.get? (a - r.1) else none)).getD 0)

/-- Big-endian 4-byte encoding of a u32 value. -/
def be4 (v : Nat) : List Nat :=
  [v / 16777216 % 256, v / 65536 % 256, v / 256 % 256, v % 256]

/-- The 8 bytes of "LARCHIVE". -/
def larchive : List Nat := [76, 65, 82, 67, 72, 73, 86, 69]

/-- On-disk encoding of a record's fixed header followed by its name bytes. -/
def recBytes (len ty attrs off : Nat) (nm : List Nat) : List Nat :=
  larchive ++ be4 len ++ be4 ty ++ be4 attrs ++ be4 off ++ nm

/-- Addresses read by the fixed 24-byte record decode at off (memcpy at line 175). -/
def recReadAddrs (off : Nat) : List Nat := (List.range 24).map (off + ·)

/-- The consecutive-record relation asserted by the spec's walk invariant: the
cursor delta is a positive multiple of align and at least the record's
offset+len sum. -/
def c2Rel (m : Mem) (al a b : Nat) : Bool :=
  decide (0 < b - a) && decide ((b - a) % al = 0) && decide (sumAt m a ≤ b - a)

/-- Big-endian byte j (j < 4) of a 32-bit value. -/
def beByte (v j : Nat) : Nat := v / 256 ^ (3 - j) % 256

/-- Little-endian byte k of a 32-bit value. -/
def leByte (v k : Nat) : Nat := v / 256 ^ k % 256

/-- Header fields in on-disk order, with the reserved pad word zero. -/
def headerFields (h : cbfs_header) : List Nat :=
  [h.magic, h.version, h.romsize, h.bootblocksize, h.align, h.offset,
   h.architecture, 0]

/-- Byte at index j of the big-endian encoded header block. -/
def headerByte (h : cbfs_header) (j : Nat) : Nat :=
  beByte ((headerFields h).getD (j / 4) 0) (j % 4)

/-- Synthetic image: the footer at end-4 stores hdrA - 2^32 as a native-order
int32 (whose unsigned 32-bit representation is hdrA itself when 2^31 ≤ hdrA),
and the big-endian header block sits at hdrA. All other bytes are zero. -/
def mkImage (hdrA : Nat) (h : cbfs_header) : Mem := fun a =>
  if endAddr - 4 ≤ a ∧ a < endAddr then leByte hdrA (a - (endAddr - 4))
  else if hdrA ≤ a ∧ a < hdrA + 28 then headerByte h (a - hdrA)
  else 0

/-- Memory equal to m except that the 4 header bytes of the version field at
header address h are replaced by the big-endian encoding of v. -/
def setVersion (m : Mem) (h v : Nat) : Mem := fun a =>
  if h + 4 ≤ a ∧ a < h + 8 then beByte v (a - (h + 4)) else m a

/-! Concrete images used by counterexamples and witnesses. -/

/-- Image with one record declaring offset = 0 and len = 0, so that the cursor
increment (align + 0 - 1) & ~(align-1) is 0 and the loop never advances. -/
def stuckMem : Mem := memRegions [(4294967232, recBytes 0 0 0 0 [])]

/-- List-mode configuration over stuckMem. -/
def stuckCfg : WalkCfg :=
  { mem := stuckMem, doList := true, target := none, typeF := none,
    oracle := fun _ => 1 }

/-- The walk over stuckMem from its record at end-64 never terminates: the same
record is decoded forever. -/
def stuckDiverges : Prop :=
  ∀ fuel, walkFuel stuckCfg 64 fuel 4294967232 [] = none

/-- Image with two well-formed records at end-256: "a" (type 0x10, 4 payload
bytes, padded to the 64-byte alignment) and "b" (type 0x11, 8 payload bytes),
followed by zero bytes (sentinel). -/
def pairMem : Mem := memRegions
  [(4294967040,
    recBytes 4 16 0 32 [97, 0, 0, 0, 0, 0, 0, 0] ++ [1, 2, 3, 4] ++
      List.replicate 28 0 ++
      recBytes 8 17 0 32 [98, 0, 0, 0, 0, 0, 0, 0] ++
      [9, 10, 11, 12, 13, 14, 15, 16])]

/-- List-mode configuration over pairMem. -/
def listCfg : WalkCfg :=
  { mem := pairMem, doList := true, target := none, typeF := none,
    oracle := fun _ => 1 }

/-- Read-mode configuration over pairMem asking for the absent name "z". -/
def readMissCfg : WalkCfg :=
  { mem := pairMem, doList := false, target := some [122], typeF := none,
    oracle := fun _ => 1 }

/-- Image with one record whose name field capacity is 3 (offset = 27) holding
"foo" with no NUL, and a 2-byte payload. -/
def fooMem : Mem :=
  memRegions [(4294967168, recBytes 2 0 0 27 [102, 111, 111] ++ [5, 6])]

/-- Read-mode configuration over fooMem asking for "foobar": the comparison is
bounded by the record's capacity 3, so it matches. -/
def fooCfg : WalkCfg :=
  { mem := fooMem, doList := false, target := some [102, 111, 111, 98, 97, 114],
    typeF := none, oracle := fun _ => 1 }

/-- Image with one record named "x" at end-64 declaring len = 100, whose payload
would extend past the ROM end. -/
def truncMem : Mem :=
  memRegions [(4294967232, recBytes 100 0 0 32 [120, 0, 0, 0, 0, 0, 0, 0])]

/-- Read-mode configuration over truncMem asking for "x". -/
def truncCfg : WalkCfg :=
  { mem := truncMem, doList := false, target := some [120], typeF := none,
    oracle := fun _ => 1 }

/-- Image with a valid header (at 0xFFFFF000, located by a well-formed footer
pointer) declaring romsize = 16 and offset = 0, so the walk starts 16 bytes
below the ROM end and its first 24-byte decode reads past the mapped view. -/
def oobMem : Mem := memRegions
  [(4294963200,
    be4 0x4F524243 ++ be4 0x31313132 ++ be4 16 ++ be4 0 ++ be4 64 ++ be4 0 ++
      be4 1 ++ be4 0),
   (4294967292, [0, 240, 255, 255])]

/-- List-mode configuration over oobMem. -/
def oobCfg : WalkCfg :=
  { mem := oobMem, doList := true, target := none, typeF := none,
    oracle := fun _ => 1 }

/-! CLI model. getopt_long is an external collaborator (libc); it is modelled by
its contract: with optstring "h?vlr:t:" and the long-option table of cbfs.c it
can only hand the loop the codes v, l, r(arg), t(arg), h, or the error/help code
'?' (here q), which it produces for -?, for every unknown short or long option,
and for a missing required argument, indistinguishably. -/

/-- One value returned by getopt_long. -/
inductive GetoptEv where
  | v
  | l
  | r (arg : List Nat)
  | t (arg : List Nat)
  | h
  | q
deriving DecidableEq

/-- Outcome of CLI processing (cbfs.c lines 66-119): usage printed to stderr and
exit 1; usage printed and exit 0; the excess-arguments message and exit 1; or
proceed to the walk with the resolved flags (the type filter keeps its raw
optarg bytes, which the C passes through strtoul). -/
inductive CliOut where
  | usageErr
  | usageOk
  | excessErr
  | proceed (doList : Bool) (target : Option (List Nat)) (typeArg : Option (List Nat))
deriving DecidableEq

/-- Exit code of a CLI outcome, none when the program proceeds past the CLI. -/
def cliExit : CliOut → Option Nat
  | .usageErr => some 1
  | .usageOk => some 0
  | .excessErr => some 1
  | .proceed _ _ _ => none

/-- The getopt loop and the two checks after it (cbfs.c lines 80-119); npos is
the number of positional arguments remaining after option processing. -/
def cliLoop (doList : Bool) (target : Option (List Nat))
    (typeArg : Option (List Nat)) : List GetoptEv → Nat → CliOut
  | [], npos =>
    if !doList && target.isNone then .usageErr
    else if npos ≠ 0 then .excessErr
    else .proceed doList target typeArg
  | ev :: rest, npos =>
    match ev with
    | .v => cliLoop doList target typeArg rest npos
    | .l => cliLoop true target typeArg rest npos
    | .r a => cliLoop doList (some a) typeArg rest npos
    | .t a => cliLoop doList target (some a) rest npos
    | .h => .usageOk
    | .q => .usageOk

/-- CLI processing from program start: argc <= 1 prints usage and exits 1,
otherwise the getopt loop runs. -/
def cliMain (args : List GetoptEv) (npos : Nat) (argcLe1 : Bool) : CliOut :=
  if argcLe1 then .usageErr else cliLoop false none none args npos

/-! Arithmetic characterization of the increment computation for power-of-two
alignment. -/

theorem maskShift (k : Nat) (hk : k ≤ 32) :
    U32 - 2 ^ k = (2 ^ (32 - k) - 1) <<< k := by
  rw [Nat.shiftLeft_eq, Nat.sub_mul, one_mul, ← Nat.pow_add, Nat.sub_add_cancel hk]

theorem xor_ones_pow (k : Nat) (hk : k ≤ 32) :
    (U32 - 1) ^^^ (2 ^ k - 1) = U32 - 2 ^ k := by
  have h32 : (U32 : Nat) = 2 ^ 32 := by norm_num
  rw [maskShift k hk]
  apply Nat.eq_of_testBit_eq
  intro i
  rw [h32, Nat.testBit_xor, Nat.testBit_two_pow_sub_one,
    Nat.testBit_two_pow_sub_one, Nat.testBit_shiftLeft, Nat.testBit_two_pow_sub_one]
  rcases Nat.lt_or_ge i k with h1 | h1
  · have h2 : i < 32 := lt_of_lt_of_le h1 hk
    have h3 : ¬ (i ≥ k) := Nat.not_le.mpr h1
    simp [h1, h2, h3]
  · have h5 : ¬ (i < k) := Nat.not_lt.mpr h1
    rcases Nat.lt_or_ge i 32 with h2 | h2
    · have h3 : i - k < 32 - k := by omega
      simp [h2, h3, h1, h5]
    · have h3 : ¬ (i - k < 32 - k) := by omega
      have h4 : ¬ (i < 32) := Nat.not_lt.mpr h2
      simp [h3, h4, h5]

theorem land_low_clear (x k : Nat) (hk : k ≤ 32) (hx : x < U32) :
    x &&& (U32 - 2 ^ k) = 2 ^ k * (x / 2 ^ k) := by
  have h32 : (U32 : Nat) = 2 ^ 32 := by norm_num
  have hrhs : 2 ^ k * (x / 2 ^ k) = (x >>> k) <<< k := by
    rw [Nat.shiftRight_eq_div_pow, Nat.shiftLeft_eq, Nat.mul_comm]
  rw [maskShift k hk, hrhs]
  apply Nat.eq_of_testBit_eq
  intro i
  rw [Nat.testBit_and, Nat.testBit_shiftLeft, Nat.testBit_shiftLeft,
    Nat.testBit_two_pow_sub_one, Nat.testBit_shiftRight]
  rcases Nat.lt_or_ge i k with h1 | h1
  · simp [Nat.not_le.mpr h1]
  · have hik : k + (i - k) = i := by omega
    rw [hik]
    rcases Nat.lt_or_ge i 32 with h2 | h2
    · have h3 : i - k < 32 - k := by omega
      simp [h1, h3]
    · have hxb : x.testBit i = false := by
        apply Nat.testBit_lt_two_pow
        calc x < 2 ^ 32 := by omega
        _ ≤ 2 ^ i := Nat.pow_le_pow_right (by norm_num) h2
      have h3 : ¬ (i - k < 32 - k) := by omega
      simp [hxb, h3]

theorem incOf_pow2 (k s : Nat) (hk : k < 32) (hs : 0 < s) (hb : s + 2 ^ k ≤ U32) :
    incOf (2 ^ k) s = 2 ^ k * ((s + 2 ^ k - 1) / 2 ^ k) := by
  have hA1 : 0 < 2 ^ k := Nat.two_pow_pos k
  have hAlt : 2 ^ k < U32 := by
    have h1 : 2 ^ k ≤ 2 ^ 31 := Nat.pow_le_pow_right (by norm_num) (by omega)
    have h2 : (2 : Nat) ^ 31 = 2147483648 := by norm_num
    omega
  have e1 : (2 ^ k + (U32 - 1)) % U32 = 2 ^ k - 1 := by
    have h : 2 ^ k + (U32 - 1) = (2 ^ k - 1) + U32 := by omega
    rw [h, Nat.add_mod_right, Nat.mod_eq_of_lt (by omega)]
  have e2 : (2 ^ k + s + (U32 - 1)) % U32 = 2 ^ k + s - 1 := by
    have h : 2 ^ k + s + (U32 - 1) = (2 ^ k + s - 1) + U32 := by omega
    rw [h, Nat.add_mod_right, Nat.mod_eq_of_lt (by omega)]
  unfold incOf
  rw [e1, e2, xor_ones_pow k (le_of_lt hk),
    land_low_clear _ k (le_of_lt hk) (by omega)]
  have h : 2 ^ k + s - 1 = s + 2 ^ k - 1 := by omega
  rw [h]

theorem incOf_pow2_facts (k s : Nat) (hk : k < 32) (hs : 0 < s)
    (hb : s + 2 ^ k ≤ U32) :
    0 < incOf (2 ^ k) s ∧ incOf (2 ^ k) s % 2 ^ k = 0 ∧ s ≤ incOf (2 ^ k) s := by
  have h := incOf_pow2 k s hk hs hb
  have hA : 0 < 2 ^ k := Nat.two_pow_pos k
  have hd := Nat.div_add_mod (s + 2 ^ k - 1) (2 ^ k)
  have hm : (s + 2 ^ k - 1) % 2 ^ k < 2 ^ k := Nat.mod_lt _ hA
  obtain ⟨P, hP⟩ : ∃ P, 2 ^ k * ((s + 2 ^ k - 1) / 2 ^ k) = P := ⟨_, rfl⟩
  rw [h, hP]
  rw [hP] at hd
  refine ⟨by omega, ?_, by omega⟩
  rw [← hP, Nat.mul_mod_right]

/-! Behaviour of the write loop. -/

theorem writeGo_pos (oracle : Nat → Int) (data : List Nat)
    (hpos : ∀ j, 0 < oracle j) :
    ∀ fuel k off, data.length ≤ off + fuel →
      writeGo oracle data k off fuel = (data.drop off, true) := by
  intro fuel
  induction fuel with
  | zero =>
    intro k off h
    have hl : data.length ≤ off := by omega
    simp [writeGo, hl, List.drop_eq_nil_of_le hl]
  | succ n ih =>
    intro k off h
    rw [writeGo]
    by_cases hl : data.length ≤ off
    · rw [if_pos hl, List.drop_eq_nil_of_le hl]
    · rw [if_neg hl]
      have hok := hpos k
      have hrc : ¬ (oracle k ≤ 0) := by omega
      rw [if_neg hrc]
      have heff : 1 ≤ min (oracle k).toNat (data.length - off) := by omega
      rw [ih (k + 1) (off + min (oracle k).toNat (data.length - off)) (by omega)]
      have hdd : data.drop (off + min (oracle k).toNat (data.length - off)) =
          (data.drop off).drop (min (oracle k).toNat (data.length - off)) := by
        rw [List.drop_drop]
      rw [hdd, List.take_append_drop]

theorem writeOut_pos (cfg : WalkCfg) (off : Nat) (hpos : ∀ j, 0 < cfg.oracle j) :
    writeOut cfg off = (payloadAt cfg.mem off, true) := by
  unfold writeOut
  rw [writeGo_pos cfg.oracle (payloadAt cfg.mem off) hpos _ 0 0 (by omega)]
  rw [List.drop_zero]

theorem writeOut_fail_first (cfg : WalkCfg) (off : Nat) (h0 : cfg.oracle 0 ≤ 0)
    (hlen : 0 < (payloadAt cfg.mem off).length) :
    writeOut cfg off = ([], false) := by
  unfold writeOut
  rw [writeGo]
  rw [if_neg (by omega), if_pos h0]

/-! Structure of the walk and its traces. -/

theorem visitedOffs_shape (cfg : WalkCfg) (al fuel off : Nat) :
    visitedOffs cfg al fuel off = [] ∨
      ∃ t, visitedOffs cfg al fuel off = off :: t := by
  cases fuel with
  | zero => exact Or.inl rfl
  | succ n =>
    rw [visitedOffs]
    by_cases h1 : off < endAddr
    · rw [if_pos h1]
      by_cases h2 : fileMagicOk cfg.mem off = true
      · rw [if_pos h2]
        by_cases h3 : readMatchAt cfg off = true
        · rw [if_pos h3]
          exact Or.inr ⟨[], rfl⟩
        · rw [if_neg h3]
          exact Or.inr ⟨_, rfl⟩
      · rw [if_neg h2]
        exact Or.inl rfl
    · rw [if_neg h1]
      exact Or.inl rfl

theorem decodedOffs_lt_end (cfg : WalkCfg) (al : Nat) :
    ∀ fuel off a, a ∈ decodedOffs cfg al fuel off → a < endAddr := by
  intro fuel
  induction fuel with
  | zero =>
    intro off a ha
    simp [decodedOffs] at ha
  | succ n ih =>
    intro off a ha
    rw [decodedOffs] at ha
    by_cases h1 : off < endAddr
    · rw [if_pos h1] at ha
      by_cases h2 : fileMagicOk cfg.mem off = true
      · rw [if_pos h2] at ha
        by_cases h3 : readMatchAt cfg off = true
        · rw [if_pos h3] at ha
          simp at ha
          omega
        · rw [if_neg h3] at ha
          rcases List.mem_cons.mp ha with h | h
          · omega
          · exact ih _ a h
      · rw [if_neg h2] at ha
        simp at ha
        omega
    · rw [if_neg h1] at ha
      simp at ha

theorem matchResult_isSome (cfg : WalkCfg) (off : Nat) (acc' : List (List Nat)) :
    (matchResult cfg off acc').isSome = true := by
  unfold matchResult
  by_cases h1 : endAddr < off + (readFile cfg.mem off).offset + (readFile cfg.mem off).len
  · rw [if_pos h1]
    rfl
  · rw [if_neg h1]
    by_cases h2 : (writeOut cfg off).2 = true
    · rw [if_pos h2]
      rfl
    · rw [if_neg h2]
      rfl

theorem walk_stuck (cfg : WalkCfg) (al off : Nat) (h1 : off < endAddr)
    (h2 : fileMagicOk cfg.mem off = true) (h3 : readMatchAt cfg off = false)
    (h4 : incAt cfg.mem al off = 0) :
    ∀ fuel acc, walkFuel cfg al fuel off acc = none := by
  intro fuel
  induction fuel with
  | zero =>
    intro acc
    rfl
  | succ n ih =>
    intro acc
    rw [walkFuel, if_pos h1, if_pos h2, if_neg (by simp [h3]), h4]
    exact ih _

theorem walkFuel_total (cfg : WalkCfg) (al : Nat) :
    ∀ n off acc, endAddr - off ≤ n →
      (∀ a ∈ decodedOffs cfg al (n + 1) off, 0 < incAt cfg.mem al a) →
      (walkFuel cfg al (n + 1) off acc).isSome = true := by
  intro n
  induction n with
  | zero =>
    intro off acc hb _
    have h1 : ¬ (off < endAddr) := by omega
    rw [walkFuel, if_neg h1]
    rfl
  | succ m ih =>
    intro off acc hb hdec
    rw [walkFuel]
    by_cases h1 : off < endAddr
    · rw [if_pos h1]
      by_cases h2 : fileMagicOk cfg.mem off = true
      · rw [if_pos h2]
        by_cases h3 : readMatchAt cfg off = true
        · rw [if_pos h3]
          exact matchResult_isSome cfg off _
        · rw [if_neg h3]
          have hoffmem : off ∈ decodedOffs cfg al (m + 1 + 1) off := by
            rw [decodedOffs, if_pos h1, if_pos h2, if_neg h3]
            exact List.mem_cons_self _ _
          have hinc : 0 < incAt cfg.mem al off := hdec off hoffmem
          apply ih (off + incAt cfg.mem al off) _ (by omega)
          intro a ha
          apply hdec
          rw [decodedOffs, if_pos h1, if_pos h2, if_neg h3]
          exact List.mem_cons_of_mem _ ha
      · rw [if_neg h2]
        rfl
    · rw [if_neg h1]
      rfl

theorem walkFuel_not_headerReject (cfg : WalkCfg) (al : Nat) :
    ∀ fuel off acc, isHeaderReject (walkFuel cfg al fuel off acc) = false := by
  intro fuel
  induction fuel with
  | zero =>
    intro off acc
    rfl
  | succ n ih =>
    intro off acc
    rw [walkFuel]
    by_cases h1 : off < endAddr
    · rw [if_pos h1]
      by_cases h2 : fileMagicOk cfg.mem off = true
      · rw [if_pos h2]
        by_cases h3 : readMatchAt cfg off = true
        · rw [if_pos h3]
          unfold matchResult isHeaderReject
          by_cases h4 : endAddr < off + (readFile cfg.mem off).offset +
              (readFile cfg.mem off).len
          · rw [if_pos h4]
            rfl
          · rw [if_neg h4]
            by_cases h5 : (writeOut cfg off).2 = true
            · rw [if_pos h5]
              rfl
            · rw [if_neg h5]
              rfl
        · rw [if_neg h3]
          exact ih _ _
      · rw [if_neg h2]
        unfold finishWalk isHeaderReject
        cases cfg.target <;> rfl
    · rw [if_neg h1]
      unfold finishWalk isHeaderReject
      cases cfg.target <;> rfl

theorem listUpd_eq (cfg : WalkCfg) (off : Nat) (acc : List (List Nat)) :
    listUpd cfg off acc = acc ++
      (if cfg.doList && typePass cfg.typeF (readFile cfg.mem off).type then
        [nameAt cfg.mem off] else []) := by
  unfold listUpd
  by_cases h : (cfg.doList && typePass cfg.typeF (readFile cfg.mem off).type) = true
  · simp [h]
  · simp [h]

theorem listedSpec_cons (cfg : WalkCfg) (al n off : Nat) (h1 : off < endAddr)
    (h2 : fileMagicOk cfg.mem off = true) (h3 : readMatchAt cfg off = false) :
    listedSpec cfg al (n + 1) off =
      (if cfg.doList && typePass cfg.typeF (readFile cfg.mem off).type then
        [nameAt cfg.mem off] else []) ++
      listedSpec cfg al n (off + incAt cfg.mem al off) := by
  unfold listedSpec
  rw [visitedOffs, if_pos h1, if_pos h2, if_neg (by simp [h3]), List.filter_cons]
  by_cases h4 : (cfg.doList && typePass cfg.typeF (readFile cfg.mem off).type) = true
  · simp [h4]
  · simp [h4]

theorem walkFuel_list_mode (cfg : WalkCfg) (al : Nat) (hT : cfg.target = none) :
    ∀ fuel off acc r, walkFuel cfg al fuel off acc = some r →
      r = ⟨0, acc ++ listedSpec cfg al fuel off, [], .noErr, none⟩ := by
  intro fuel
  induction fuel with
  | zero =>
    intro off acc r h
    exact absurd h (by simp [walkFuel])
  | succ n ih =>
    intro off acc r h
    rw [walkFuel] at h
    by_cases h1 : off < endAddr
    · rw [if_pos h1] at h
      by_cases h2 : fileMagicOk cfg.mem off = true
      · rw [if_pos h2] at h
        have h3 : readMatchAt cfg off = false := by
          unfold readMatchAt
          rw [hT]
        rw [if_neg (by simp [h3])] at h
        have hr := ih _ _ r h
        rw [hr, listedSpec_cons cfg al n off h1 h2 h3, listUpd_eq,
          List.append_assoc]
      · rw [if_neg h2] at h
        have hr := Option.some.inj h
        rw [← hr]
        unfold finishWalk
        rw [hT]
        have hnil : listedSpec cfg al (n + 1) off = [] := by
          unfold listedSpec
          rw [visitedOffs, if_pos h1, if_neg h2]
          rfl
        rw [hnil, List.append_nil]
    · rw [if_neg h1] at h
      have hr := Option.some.inj h
      rw [← hr]
      unfold finishWalk
      rw [hT]
      have hnil : listedSpec cfg al (n + 1) off = [] := by
        unfold listedSpec
        rw [visitedOffs, if_neg h1]
        rfl
      rw [hnil, List.append_nil]

theorem walkFuel_read_nomatch (cfg : WalkCfg) (al : Nat) (t : List Nat)
    (hT : cfg.target = some t) :
    ∀ fuel off acc r,
      (∀ a ∈ visitedOffs cfg al fuel off, readMatchAt cfg a = false) →
      walkFuel cfg al fuel off acc = some r →
      r = ⟨1, acc ++ listedSpec cfg al fuel off, [], .targetNotFound, some t⟩ := by
  intro fuel
  induction fuel with
  | zero =>
    intro off acc r _ h
    exact absurd h (by simp [walkFuel])
  | succ n ih =>
    intro off acc r hnm h
    rw [walkFuel] at h
    by_cases h1 : off < endAddr
    · rw [if_pos h1] at h
      by_cases h2 : fileMagicOk cfg.mem off = true
      · rw [if_pos h2] at h
        by_cases h3 : readMatchAt cfg off = true
        · exfalso
          have hmem : off ∈ visitedOffs cfg al (n + 1) off := by
            rw [visitedOffs, if_pos h1, if_pos h2, if_pos h3]
            exact List.mem_cons_self _ _
          have hfalse := hnm off hmem
          rw [h3] at hfalse
          exact absurd hfalse (by simp)
        · have h3' : readMatchAt cfg off = false := by
            simp only [Bool.not_eq_true] at h3
            exact h3
          rw [if_neg h3] at h
          have hsub : ∀ a ∈ visitedOffs cfg al n (off + incAt cfg.mem al off),
              readMatchAt cfg a = false := by
            intro a ha
            apply hnm
            rw [visitedOffs, if_pos h1, if_pos h2, if_neg h3]
            exact List.mem_cons_of_mem _ ha
          have hr := ih _ _ r hsub h
          rw [hr, listedSpec_cons cfg al n off h1 h2 h3', listUpd_eq,
            List.append_assoc]
      · rw [if_neg h2] at h
        have hr := Option.some.inj h
        rw [← hr]
        unfold finishWalk
        rw [hT]
        have hnil : listedSpec cfg al (n + 1) off = [] := by
          unfold listedSpec
          rw [visitedOffs, if_pos h1, if_neg h2]
          rfl
        rw [hnil, List.append_nil]
    · rw [if_neg h1] at h
      have hr := Option.some.inj h
      rw [← hr]
      unfold finishWalk
      rw [hT]
      have hnil : listedSpec cfg al (n + 1) off = [] := by
        unfold listedSpec
        rw [visitedOffs, if_neg h1]
        rfl
      rw [hnil, List.append_nil]

/-! CLI behaviour. -/

theorem cliLoop_only_vt (npos : Nat) :
    ∀ args typeArg, (∀ ev ∈ args, ev = GetoptEv.v ∨ ∃ a, ev = GetoptEv.t a) →
      cliLoop false none typeArg args npos = .usageErr := by
  intro args
  induction args with
  | nil =>
    intro typeArg _
    rfl
  | cons ev rest ih =>
    intro typeArg hall
    rcases hall ev (List.mem_cons_self _ _) with h | ⟨a, h⟩
    · subst h
      show cliLoop false none typeArg rest npos = .usageErr
      exact ih _ (fun e he => hall e (List.mem_cons_of_mem _ he))
    · subst h
      show cliLoop false none (some a) rest npos = .usageErr
      exact ih _ (fun e he => hall e (List.mem_cons_of_mem _ he))

theorem cliLoop_help (npos : Nat) :
    ∀ args doList target typeArg,
      (GetoptEv.h ∈ args ∨ GetoptEv.q ∈ args) →
      cliLoop doList target typeArg args npos = .usageOk := by
  intro args
  induction args with
  | nil =>
    intro d t f h
    rcases h with h | h <;> simp at h
  | cons ev rest ih =>
    intro d t f h
    cases ev with
    | v =>
      show cliLoop d t f rest npos = .usageOk
      apply ih
      rcases h with h | h
      · rcases List.mem_cons.mp h with he | hm
        · exact absurd he (by simp)
        · exact Or.inl hm
      · rcases List.mem_cons.mp h with he | hm
        · exact absurd he (by simp)
        · exact Or.inr hm
    | l =>
      show cliLoop true t f rest npos = .usageOk
      apply ih
      rcases h with h | h
      · rcases List.mem_cons.mp h with he | hm
        · exact absurd he (by simp)
        · exact Or.inl hm
      · rcases List.mem_cons.mp h with he | hm
        · exact absurd he (by simp)
        · exact Or.inr hm
    | r a =>
      show cliLoop d (some a) f rest npos = .usageOk
      apply ih
      rcases h with h | h
      · rcases List.mem_cons.mp h with he | hm
        · exact absurd he (by simp)
        · exact Or.inl hm
      · rcases List.mem_cons.mp h with he | hm
        · exact absurd he (by simp)
        · exact Or.inr hm
    | t a =>
      show cliLoop d t (some a) rest npos = .usageOk
      apply ih
      rcases h with h | h
      · rcases List.mem_cons.mp h with he | hm
        · exact absurd he (by simp)
        · exact Or.inl hm
      · rcases List.mem_cons.mp h with he | hm
        · exact absurd he (by simp)
        · exact Or.inr hm
    | h => rfl
    | q => rfl

theorem cliLoop_excess (npos : Nat) (hnp : npos ≠ 0) :
    ∀ args doList target typeArg,
      GetoptEv.h ∉ args → GetoptEv.q ∉ args →
      (doList = true ∨ target.isSome = true ∨ GetoptEv.l ∈ args ∨
        ∃ a, GetoptEv.r a ∈ args) →
      cliLoop doList target typeArg args npos = .excessErr := by
  intro args
  induction args with
  | nil =>
    intro d t f _ _ hop
    have hcond : (!d && t.isNone) = false := by
      rcases hop with h | h | h | ⟨a, h⟩
      · rw [h]
        rfl
      · cases t with
        | none => simp at h
        | some x => simp
      · simp at h
      · simp at h
    simp only [cliLoop]
    rw [hcond]
    simp [hnp]
  | cons ev rest ih =>
    intro d t f hh hq hop
    cases ev with
    | v =>
      show cliLoop d t f rest npos = .excessErr
      apply ih d t f (fun hc => hh (List.mem_cons_of_mem _ hc))
        (fun hc => hq (List.mem_cons_of_mem _ hc))
      rcases hop with h | h | h | ⟨a, h⟩
      · exact Or.inl h
      · exact Or.inr (Or.inl h)
      · rcases List.mem_cons.mp h with he | hm
        · exact absurd he (by simp)
        · exact Or.inr (Or.inr (Or.inl hm))
      · rcases List.mem_cons.mp h with he | hm
        · exact absurd he (by simp)
        · exact Or.inr (Or.inr (Or.inr ⟨a, hm⟩))
    | l =>
      show cliLoop true t f rest npos = .excessErr
      apply ih true t f (fun hc => hh (List.mem_cons_of_mem _ hc))
        (fun hc => hq (List.mem_cons_of_mem _ hc))
      exact Or.inl rfl
    | r a =>
      show cliLoop d (some a) f rest npos = .excessErr
      apply ih d (some a) f (fun hc => hh (List.mem_cons_of_mem _ hc))
        (fun hc => hq (List.mem_cons_of_mem _ hc))
      exact Or.inr (Or.inl rfl)
    | t a =>
      show cliLoop d t (some a) rest npos = .excessErr
      apply ih d t (some a) (fun hc => hh (List.mem_cons_of_mem _ hc))
        (fun hc => hq (List.mem_cons_of_mem _ hc))
      rcases hop with h | h | h | ⟨b, h⟩
      · exact Or.inl h
      · exact Or.inr (Or.inl h)
      · rcases List.mem_cons.mp h with he | hm
        · exact absurd he (by simp)
        · exact Or.inr (Or.inr (Or.inl hm))
      · rcases List.mem_cons.mp h with he | hm
        · exact absurd he (by simp)
        · exact Or.inr (Or.inr (Or.inr ⟨b, hm⟩))
    | h => exact absurd (List.mem_cons_self _ _) hh
    | q => exact absurd (List.mem_cons_self _ _) hq

/-! Reading back synthetic images. -/

theorem readBE32_beBytes (m : Mem) (a v : Nat) (hv : v < U32)
    (h0 : readByte m a = beByte v 0) (h1 : readByte m (a + 1) = beByte v 1)
    (h2 : readByte m (a + 2) = beByte v 2) (h3 : readByte m (a + 3) = beByte v 3) :
    readBE32 m a = v := by
  unfold readBE32
  rw [h0, h1, h2, h3]
  unfold beByte
  norm_num
  have hv2 : v < 4294967296 := hv
  omega

theorem readLE32_leBytes (m : Mem) (a v : Nat) (hv : v < U32)
    (h0 : readByte m a = leByte v 0) (h1 : readByte m (a + 1) = leByte v 1)
    (h2 : readByte m (a + 2) = leByte v 2) (h3 : readByte m (a + 3) = leByte v 3) :
    readLE32 m a = v := by
  unfold readLE32
  rw [h0, h1, h2, h3]
  unfold leByte
  norm_num
  have hv2 : v < 4294967296 := hv
  omega

theorem mkImage_footer_byte (hdrA : Nat) (h : cbfs_header) (a : Nat)
    (ha1 : endAddr - 4 ≤ a) (ha2 : a < endAddr) :
    readByte (mkImage hdrA h) a = leByte hdrA (a - (endAddr - 4)) := by
  simp only [mkImage, readByte]
  rw [if_pos ⟨ha1, ha2⟩]
  unfold leByte
  apply Nat.mod_eq_of_lt
  exact Nat.mod_lt _ (by norm_num)

theorem mkImage_header_byte (hdrA : Nat) (h : cbfs_header) (j : Nat) (hj : j < 28)
    (hsep : hdrA + 28 ≤ endAddr - 4) :
    readByte (mkImage hdrA h) (hdrA + j) = headerByte h j := by
  simp only [mkImage, readByte]
  rw [if_neg (by rintro ⟨c1, c2⟩; omega), if_pos ⟨by omega, by omega⟩]
  have hidx : hdrA + j - hdrA = j := by omega
  rw [hidx]
  unfold headerByte beByte
  apply Nat.mod_eq_of_lt
  exact Nat.mod_lt _ (by norm_num)

theorem mkImage_read_field (hdrA : Nat) (h : cbfs_header)
    (hsep : hdrA + 28 ≤ endAddr - 4) (i v : Nat) (hi : i + 4 ≤ 28) (hv : v < U32)
    (hfield : ∀ j, j < 4 → headerByte h (i + j) = beByte v j) :
    readBE32 (mkImage hdrA h) (hdrA + i) = v := by
  apply readBE32_beBytes _ _ _ hv
  · rw [mkImage_header_byte hdrA h i (by omega) hsep]
    have h0 := hfield 0 (by norm_num)
    rwa [Nat.add_zero] at h0
  · have e : hdrA + i + 1 = hdrA + (i + 1) := by omega
    rw [e, mkImage_header_byte hdrA h (i + 1) (by omega) hsep]
    exact hfield 1 (by norm_num)
  · have e : hdrA + i + 2 = hdrA + (i + 2) := by omega
    rw [e, mkImage_header_byte hdrA h (i + 2) (by omega) hsep]
    exact hfield 2 (by norm_num)
  · have e : hdrA + i + 3 = hdrA + (i + 3) := by omega
    rw [e, mkImage_header_byte hdrA h (i + 3) (by omega) hsep]
    exact hfield 3 (by norm_num)

/-! Overwriting the version field. -/

theorem setVersion_outside (m : Mem) (hA v a : Nat)
    (ha : a < hA + 4 ∨ hA + 8 ≤ a) :
    readByte (setVersion m hA v) a = readByte m a := by
  simp only [setVersion, readByte]
  rw [if_neg (by rintro ⟨c1, c2⟩; omega)]

theorem setVersion_inside (m : Mem) (hA v k : Nat) (hk : k < 4) :
    readByte (setVersion m hA v) (hA + 4 + k) = beByte v k := by
  simp only [setVersion, readByte]
  rw [if_pos ⟨by omega, by omega⟩]
  have hidx : hA + 4 + k - (hA + 4) = k := by omega
  rw [hidx]
  unfold beByte
  apply Nat.mod_eq_of_lt
  exact Nat.mod_lt _ (by norm_num)

theorem headerOff_congr (m m' : Mem)
    (he : readLE32 m' (endAddr - 4) = readLE32 m (endAddr - 4)) :
    headerOff m' = headerOff m := by
  unfold headerOff headerDelta
  rw [he]

theorem setVersion_readBE32_version (m : Mem) (hA v : Nat) (hv : v < U32) :
    readBE32 (setVersion m hA v) (hA + 4) = v := by
  apply readBE32_beBytes _ _ _ hv
  · have h0 := setVersion_inside m hA v 0 (by norm_num)
    rwa [Nat.add_zero] at h0
  · exact setVersion_inside m hA v 1 (by norm_num)
  · exact setVersion_inside m hA v 2 (by norm_num)
  · exact setVersion_inside m hA v 3 (by norm_num)

/-! Claim theorems. -/

/-- C1: in read mode, a decoded record that passes the type filter is matched by
comparing the requested target name against the candidate name with a byte count
equal to the current record's declared name capacity (record.offset - 24 in
size_t arithmetic, the nameSize bound of strncmpEq), not the length of the
requested target; on the first record that compares equal under this bound the
payload is extracted (record.len bytes, here with an in-bounds payload and
successful writes) and no further record is decoded. -/
theorem read_first_match_extracts (cfg : WalkCfg) (al fuel off : Nat)
    (acc : List (List Nat)) (t : List Nat)
    (hoff : off < endAddr) (hmag : fileMagicOk cfg.mem off = true)
    (hT : cfg.target = some t)
    (htype : typePass cfg.typeF (readFile cfg.mem off).type = true)
    (hcmp : strncmpEq cfg.mem (off + 24) t (nameSize (readFile cfg.mem off)) = true)
    (hfit : off + (readFile cfg.mem off).offset + (readFile cfg.mem off).len ≤ endAddr)
    (hw : ∀ j, 0 < cfg.oracle j) :
    walkFuel cfg al (fuel + 1) off acc =
      some ⟨0, listUpd cfg off acc,
        payloadBytes cfg.mem (off + (readFile cfg.mem off).offset)
          (readFile cfg.mem off).len, .noErr, none⟩ ∧
    decodedOffs cfg al (fuel + 1) off = [off] := by
  have hm : readMatchAt cfg off = true := by
    unfold readMatchAt
    rw [hT]
    simp [htype, hcmp]
  constructor
  · rw [walkFuel, if_pos hoff, if_pos hmag, if_pos hm]
    unfold matchResult
    rw [if_neg (by omega), writeOut_pos cfg off hw]
    simp [payloadAt]
  · rw [decodedOffs, if_pos hoff, if_pos hmag, if_pos hm]

/-- C1 witness: the record at end-128 stores "foo" in a 3-byte name field
(offset 27); the request for the longer name "foobar" matches because the
comparison is cut off at the record's capacity 3, and its 2 payload bytes are
extracted with no further record examined. -/
theorem read_first_match_extracts_witness :
    walkFuel fooCfg 64 1 4294967168 [] =
      some ⟨0, listUpd fooCfg 4294967168 [],
        payloadBytes fooCfg.mem (4294967168 + (readFile fooCfg.mem 4294967168).offset)
          (readFile fooCfg.mem 4294967168).len, .noErr, none⟩ ∧
    decodedOffs fooCfg 64 1 4294967168 = [4294967168] :=
  read_first_match_extracts fooCfg 64 0 4294967168 [] [102, 111, 111, 98, 97, 114]
    (by decide) (by decide) rfl (by decide) (by decide) (by decide)
    (fun _ => Int.one_pos)

/-- C2 counterexample: on the record at end-64 declaring offset = 0 and len = 0,
the walk visits the same offset twice in a row (the increment is 0), so the
consecutive-record delta is 0: not a positive multiple of align = 64. -/
theorem walk_delta_counterexample :
    visitedOffs stuckCfg 64 2 4294967232 = [4294967232, 4294967232] ∧
    c2Rel stuckMem 64 4294967232 4294967232 = false := by
  exact ⟨by decide, by decide⟩

/-- C2 (amended): provided header.align is a power of two 2^k with k < 32 and
every visited record's uint32 sum s = (offset + len) mod 2^32 satisfies
0 < s and s + align ≤ 2^32 (so the increment computation does not wrap),
consecutive visited cursor offsets differ by exactly
align_up(s, align) = align * ((s + align - 1) / align): a positive multiple of
align that is at least s. -/
theorem walk_delta_aligned (cfg : WalkCfg) (k : Nat) (hk : k < 32) :
    ∀ fuel off,
      (∀ a ∈ visitedOffs cfg (2 ^ k) fuel off,
        0 < sumAt cfg.mem a ∧ sumAt cfg.mem a + 2 ^ k ≤ U32) →
      List.Chain'
        (fun a b => b - a = 2 ^ k * ((sumAt cfg.mem a + 2 ^ k - 1) / 2 ^ k) ∧
          c2Rel cfg.mem (2 ^ k) a b = true)
        (visitedOffs cfg (2 ^ k) fuel off) := by
  intro fuel
  induction fuel with
  | zero =>
    intro off _
    exact List.chain'_nil
  | succ n ih =>
    intro off hrec
    rw [visitedOffs]
    by_cases h1 : off < endAddr
    · rw [if_pos h1]
      by_cases h2 : fileMagicOk cfg.mem off = true
      · rw [if_pos h2]
        by_cases h3 : readMatchAt cfg off = true
        · rw [if_pos h3]
          exact List.chain'_singleton _
        · rw [if_neg h3]
          have hoffmem : off ∈ visitedOffs cfg (2 ^ k) (n + 1) off := by
            rw [visitedOffs, if_pos h1, if_pos h2, if_neg h3]
            exact List.mem_cons_self _ _
          obtain ⟨hs0, hsb⟩ := hrec off hoffmem
          have hinc := incOf_pow2 k (sumAt cfg.mem off) hk hs0 hsb
          obtain ⟨f1, f2, f3⟩ := incOf_pow2_facts k (sumAt cfg.mem off) hk hs0 hsb
          have hsub : ∀ a ∈ visitedOffs cfg (2 ^ k) n
              (off + incAt cfg.mem (2 ^ k) off),
              0 < sumAt cfg.mem a ∧ sumAt cfg.mem a + 2 ^ k ≤ U32 := by
            intro a ha
            apply hrec
            rw [visitedOffs, if_pos h1, if_pos h2, if_neg h3]
            exact List.mem_cons_of_mem _ ha
          have hchain := ih (off + incAt cfg.mem (2 ^ k) off) hsub
          rcases visitedOffs_shape cfg (2 ^ k) n (off + incAt cfg.mem (2 ^ k) off)
            with hsh | ⟨tl, hsh⟩
          · rw [hsh]
            exact List.chain'_singleton _
          · rw [hsh]
            rw [hsh] at hchain
            apply List.chain'_cons.mpr
            refine ⟨⟨?_, ?_⟩, hchain⟩
            · rw [Nat.add_sub_cancel_left]
              exact hinc
            · have e : off + incAt cfg.mem (2 ^ k) off - off =
                  incAt cfg.mem (2 ^ k) off := Nat.add_sub_cancel_left off _
              unfold c2Rel
              rw [e]
              have g1 : 0 < incAt cfg.mem (2 ^ k) off := f1
              have g2 : incAt cfg.mem (2 ^ k) off % 2 ^ k = 0 := f2
              have g3 : sumAt cfg.mem off ≤ incAt cfg.mem (2 ^ k) off := f3
              simp [g1, g2, g3]
      · rw [if_neg h2]
        exact List.chain'_nil
    · rw [if_neg h1]
      exact List.chain'_nil

/-- C2 amended witness: over the two-record image the visited offsets are
end-256 and end-192, whose delta 64 is align_up(36, 64). -/
theorem walk_delta_aligned_witness :
    List.Chain'
      (fun a b => b - a = 2 ^ 6 * ((sumAt listCfg.mem a + 2 ^ 6 - 1) / 2 ^ 6) ∧
        c2Rel listCfg.mem (2 ^ 6) a b = true)
      (visitedOffs listCfg (2 ^ 6) 3 4294967040) :=
  walk_delta_aligned listCfg 6 (by decide) 3 4294967040 (by decide)

/-- C3 counterexample: the walk does not terminate for every image. Over
stuckMem (one record with offset = 0 and len = 0, hence increment 0) the loop
returns no result no matter how much fuel it is given: the same record is
decoded forever. -/
theorem walk_divergence_counterexample : stuckDiverges := by
  intro fuel
  exact walk_stuck stuckCfg 64 4294967232 (by decide) (by decide) (by decide)
    (by decide) fuel []

/-- C3 (amended): the walk terminates — by the magic-mismatch sentinel, by
off ≥ end, or by a read-mode match — within end - off + 1 iterations, unless
some decoded record yields a zero cursor increment
((align + offset + len - 1) & ~(align-1) = 0 in uint32 arithmetic), in which
case the loop never advances (see the divergence counterexample). -/
theorem walk_terminates_or_zero_inc (cfg : WalkCfg) (al off : Nat)
    (acc : List (List Nat)) :
    (walkFuel cfg al (endAddr - off + 1) off acc).isSome = true ∨
    ∃ a ∈ decodedOffs cfg al (endAddr - off + 1) off, incAt cfg.mem al a = 0 := by
  by_cases hz : ∃ a ∈ decodedOffs cfg al (endAddr - off + 1) off,
      incAt cfg.mem al a = 0
  · exact Or.inr hz
  · left
    push_neg at hz
    apply walkFuel_total cfg al (endAddr - off) off acc (by omega)
    intro a ha
    have := hz a ha
    omega

/-- C4 counterexample: over oobMem the header is valid and declares
romsize = 16 with offset = 0, so the walk starts at end-16 and its very first
24-byte record decode reads address end+7, beyond the mapped view which ends at
end; the code performs no bounds check before the memcpy. -/
theorem decode_oob_counterexample :
    (readHeader oobMem (headerOff oobMem)).magic = 0x4F524243 ∧
    startOff oobMem = 4294967280 ∧
    decodedOffs oobCfg 64 1 4294967280 = [4294967280] ∧
    (4294967303 : Nat) ∈ recReadAddrs 4294967280 ∧
    endAddr ≤ 4294967303 := by
  exact ⟨by decide, by decide, by decide, by decide, by decide⟩

/-- C4 (amended): every record decode happens at a cursor off < end, but the
fixed 24-byte read covers addresses off..off+23 and stays inside the mapped
view exactly when off + 24 ≤ end; the code performs no such check, so a walk
whose cursor comes within 24 bytes of the end reads past the view. -/
theorem decode_read_bounds (cfg : WalkCfg) (al fuel off a : Nat)
    (ha : a ∈ decodedOffs cfg al fuel off) :
    a < endAddr ∧
    ((∀ x ∈ recReadAddrs a, x < endAddr) ↔ a + 24 ≤ endAddr) := by
  refine ⟨decodedOffs_lt_end cfg al fuel off a ha, ?_, ?_⟩
  · intro hall
    have h23 := hall (a + 23) ?_
    · omega
    · unfold recReadAddrs
      refine List.mem_map.mpr ⟨23, List.mem_range.mpr (by norm_num), rfl⟩
  · intro hle x hx
    unfold recReadAddrs at hx
    obtain ⟨i, hi, rfl⟩ := List.mem_map.mp hx
    have := List.mem_range.mp hi
    omega

/-- C4 amended witness: the first decoded offset of the two-record image is
end-256, and its fixed read stays in bounds since end-256+24 ≤ end. -/
theorem decode_read_bounds_witness :
    (4294967040 : Nat) < endAddr ∧
    ((∀ x ∈ recReadAddrs 4294967040, x < endAddr) ↔ 4294967040 + 24 ≤ endAddr) :=
  decode_read_bounds listCfg 64 3 4294967040 4294967040 (by decide)

/-- C5: when a read-mode record matches, a payload whose start plus record.len
exceeds the ROM end aborts with exit code 1 before any payload byte is emitted;
otherwise exactly record.len payload bytes are streamed (tolerating partial
writes: any all-positive sequence of write return values yields the full
payload), and a write call returning a non-positive value is fatal with exit
code 1. -/
theorem extract_error_handling (cfg : WalkCfg) (al fuel off : Nat)
    (acc : List (List Nat))
    (hoff : off < endAddr) (hmag : fileMagicOk cfg.mem off = true)
    (hm : readMatchAt cfg off = true) :
    (endAddr < off + (readFile cfg.mem off).offset + (readFile cfg.mem off).len →
      walkFuel cfg al (fuel + 1) off acc =
        some ⟨1, listUpd cfg off acc, [], .truncated, none⟩) ∧
    (off + (readFile cfg.mem off).offset + (readFile cfg.mem off).len ≤ endAddr →
      (∀ j, 0 < cfg.oracle j) →
      walkFuel cfg al (fuel + 1) off acc =
        some ⟨0, listUpd cfg off acc,
          payloadBytes cfg.mem (off + (readFile cfg.mem off).offset)
            (readFile cfg.mem off).len, .noErr, none⟩) ∧
    (off + (readFile cfg.mem off).offset + (readFile cfg.mem off).len ≤ endAddr →
      cfg.oracle 0 ≤ 0 → 0 < (readFile cfg.mem off).len →
      walkFuel cfg al (fuel + 1) off acc =
        some ⟨1, listUpd cfg off acc, [], .writeFail, none⟩) ∧
    (∀ r, walkFuel cfg al (fuel + 1) off acc = some r →
      r.err = ErrKind.writeFail → r.exitCode = 1) := by
  rw [walkFuel, if_pos hoff, if_pos hmag, if_pos hm]
  unfold matchResult
  refine ⟨?_, ?_, ?_, ?_⟩
  · intro htr
    rw [if_pos htr]
  · intro hfit hw
    rw [if_neg (by omega), writeOut_pos cfg off hw]
    simp [payloadAt]
  · intro hfit h0 hlen
    rw [if_neg (by omega), writeOut_fail_first cfg off h0
      (by simpa [payloadAt, payloadBytes] using hlen)]
    simp
  · intro r heq herr
    by_cases c1 : endAddr < off + (readFile cfg.mem off).offset +
        (readFile cfg.mem off).len
    · rw [if_pos c1] at heq
      have hr := Option.some.inj heq
      rw [← hr]
    · rw [if_neg c1] at heq
      by_cases c2 : (writeOut cfg off).2 = true
      · rw [if_pos c2] at heq
        have hr := Option.some.inj heq
        rw [← hr] at herr
        exact absurd herr (by simp)
      · rw [if_neg c2] at heq
        have hr := Option.some.inj heq
        rw [← hr]

/-- C5 witness: the record named "x" at end-64 declares len = 100, so its
payload would extend 68 bytes past the ROM end; the matching read aborts with
exit code 1 and writes nothing. -/
theorem extract_error_handling_witness :
    walkFuel truncCfg 64 1 4294967232 [] =
      some ⟨1, listUpd truncCfg 4294967232 [], [], .truncated, none⟩ :=
  (extract_error_handling truncCfg 64 0 4294967232 [] (by decide) (by decide)
    (by decide)).1 (by decide)

/-- C6: the header locator reads the 4-byte footer pointer at end-4 in native
little-endian byte order as a signed 32-bit value, computes
headerAddress = end + delta, and big-endian-decodes every header field
(including magic), so that on any well-formed synthetic image it recovers
exactly the written field values. -/
theorem header_locator_roundtrip (hdrA : Nat) (h : cbfs_header)
    (hA1 : 2147483648 ≤ hdrA) (hA2 : hdrA + 28 ≤ endAddr - 4)
    (hf1 : h.magic < U32) (hf2 : h.version < U32) (hf3 : h.romsize < U32)
    (hf4 : h.bootblocksize < U32) (hf5 : h.align < U32) (hf6 : h.offset < U32)
    (hf7 : h.architecture < U32) :
    headerDelta (mkImage hdrA h) = (hdrA : Int) - (U32 : Int) ∧
    headerOff (mkImage hdrA h) = hdrA ∧
    readHeader (mkImage hdrA h) hdrA = h := by
  have hA2' : hdrA + 28 ≤ 4294967292 := hA2
  have hU : (U32 : Nat) = 4294967296 := rfl
  have hE : (endAddr : Nat) = 4294967296 := rfl
  have hu : readLE32 (mkImage hdrA h) (endAddr - 4) = hdrA := by
    apply readLE32_leBytes _ _ _ (by omega)
    · have hb := mkImage_footer_byte hdrA h (endAddr - 4) (le_refl _) (by omega)
      rwa [Nat.sub_self] at hb
    · have hb := mkImage_footer_byte hdrA h (endAddr - 4 + 1) (by omega) (by omega)
      have e : endAddr - 4 + 1 - (endAddr - 4) = 1 := by omega
      rwa [e] at hb
    · have hb := mkImage_footer_byte hdrA h (endAddr - 4 + 2) (by omega) (by omega)
      have e : endAddr - 4 + 2 - (endAddr - 4) = 2 := by omega
      rwa [e] at hb
    · have hb := mkImage_footer_byte hdrA h (endAddr - 4 + 3) (by omega) (by omega)
      have e : endAddr - 4 + 3 - (endAddr - 4) = 3 := by omega
      rwa [e] at hb
  have hd : headerDelta (mkImage hdrA h) = (hdrA : Int) - (U32 : Int) := by
    simp only [headerDelta]
    rw [hu, if_neg (by omega)]
  refine ⟨hd, ?_, ?_⟩
  · unfold headerOff
    rw [hd]
    have e : (endAddr : Int) + ((hdrA : Int) - (U32 : Int)) = (hdrA : Int) := by
      omega
    rw [e, Int.toNat_natCast]
  · have e1 := mkImage_read_field hdrA h hA2 0 h.magic (by norm_num) hf1
      (by intro j hj; interval_cases j <;> rfl)
    rw [Nat.add_zero] at e1
    have e2 := mkImage_read_field hdrA h hA2 4 h.version (by norm_num) hf2
      (by intro j hj; interval_cases j <;> rfl)
    have e3 := mkImage_read_field hdrA h hA2 8 h.romsize (by norm_num) hf3
      (by intro j hj; interval_cases j <;> rfl)
    have e4 := mkImage_read_field hdrA h hA2 12 h.bootblocksize (by norm_num) hf4
      (by intro j hj; interval_cases j <;> rfl)
    have e5 := mkImage_read_field hdrA h hA2 16 h.align (by norm_num) hf5
      (by intro j hj; interval_cases j <;> rfl)
    have e6 := mkImage_read_field hdrA h hA2 20 h.offset (by norm_num) hf6
      (by intro j hj; interval_cases j <;> rfl)
    have e7 := mkImage_read_field hdrA h hA2 24 h.architecture (by norm_num) hf7
      (by intro j hj; interval_cases j <;> rfl)
    unfold readHeader
    rw [e1, e2, e3, e4, e5, e6, e7]

/-- C6 witness: a concrete synthetic image at 0xFFFF8000 round-trips. -/
theorem header_locator_roundtrip_witness :
    headerDelta (mkImage 4294934528 ⟨0x4F524243, 0x31313132, 4096, 128, 64, 64, 1⟩) =
      (4294934528 : Int) - (U32 : Int) ∧
    headerOff (mkImage 4294934528 ⟨0x4F524243, 0x31313132, 4096, 128, 64, 64, 1⟩) =
      4294934528 ∧
    readHeader (mkImage 4294934528 ⟨0x4F524243, 0x31313132, 4096, 128, 64, 64, 1⟩)
      4294934528 = ⟨0x4F524243, 0x31313132, 4096, 128, 64, 64, 1⟩ :=
  header_locator_roundtrip 4294934528 ⟨0x4F524243, 0x31313132, 4096, 128, 64, 64, 1⟩
    (by decide) (by decide) (by decide) (by decide) (by decide) (by decide)
    (by decide) (by decide) (by decide)

/-- C7: if the walk terminates in read mode with no visited record matching,
the result exits with code 1, reports target-not-found naming the requested
file, and preserves the list output already emitted; if read mode is off, a
terminated walk (sentinel or exhaustion) exits with code 0. -/
theorem walk_end_outcomes (cfg : WalkCfg) (al fuel off : Nat)
    (acc : List (List Nat)) (r : RunResult)
    (hsome : walkFuel cfg al fuel off acc = some r) :
    (∀ t, cfg.target = some t →
      (∀ a ∈ visitedOffs cfg al fuel off, readMatchAt cfg a = false) →
      r.exitCode = 1 ∧ r.err = ErrKind.targetNotFound ∧ r.errName = some t ∧
        r.listed = acc ++ listedSpec cfg al fuel off) ∧
    (cfg.target = none →
      r.exitCode = 0 ∧ r.err = ErrKind.noErr ∧
        r.listed = acc ++ listedSpec cfg al fuel off) := by
  constructor
  · intro t hT hnm
    have hr := walkFuel_read_nomatch cfg al t hT fuel off acc r hnm hsome
    rw [hr]
    exact ⟨rfl, rfl, rfl, rfl⟩
  · intro hT
    have hr := walkFuel_list_mode cfg al hT fuel off acc r hsome
    rw [hr]
    exact ⟨rfl, rfl, rfl⟩

/-- C7 witness: asking the two-record image for the absent name "z" exits with
code 1 and the target-not-found report naming "z". -/
theorem walk_end_outcomes_witness :
    RunResult.exitCode ⟨1, [], [], .targetNotFound, some [122]⟩ = 1 ∧
    RunResult.err ⟨1, [], [], .targetNotFound, some [122]⟩ =
      ErrKind.targetNotFound ∧
    RunResult.errName ⟨1, [], [], .targetNotFound, some [122]⟩ = some [122] ∧
    RunResult.listed ⟨1, [], [], .targetNotFound, some [122]⟩ =
      [] ++ listedSpec readMissCfg 64 3 4294967040 :=
  (walk_end_outcomes readMissCfg 64 3 4294967040 []
    ⟨1, [], [], .targetNotFound, some [122]⟩ (by decide)).1 [122] rfl (by decide)

/-- C8: a terminated list-mode walk prints exactly the names of the visited
records that pass the type filter, in on-disk order (one printed line per
name); with no type filter it prints exactly the names of all visited records
in order. -/
theorem list_mode_output (cfg : WalkCfg) (al fuel off : Nat)
    (acc : List (List Nat)) (r : RunResult)
    (hL : cfg.doList = true) (hT : cfg.target = none)
    (hsome : walkFuel cfg al fuel off acc = some r) :
    r.listed = acc ++ ((visitedOffs cfg al fuel off).filter
      (fun a => typePass cfg.typeF (readFile cfg.mem a).type)).map
      (nameAt cfg.mem) ∧
    (cfg.typeF = none →
      r.listed = acc ++ (visitedOffs cfg al fuel off).map (nameAt cfg.mem)) := by
  have hr := walkFuel_list_mode cfg al hT fuel off acc r hsome
  have hls : listedSpec cfg al fuel off = ((visitedOffs cfg al fuel off).filter
      (fun a => typePass cfg.typeF (readFile cfg.mem a).type)).map
      (nameAt cfg.mem) := by
    unfold listedSpec
    congr 1
    apply List.filter_congr
    intro a _
    rw [hL, Bool.true_and]
  constructor
  · rw [hr, hls]
  · intro hF
    rw [hr, hls]
    have hid : (visitedOffs cfg al fuel off).filter
        (fun a => typePass cfg.typeF (readFile cfg.mem a).type) =
        visitedOffs cfg al fuel off := by
      apply List.filter_eq_self.mpr
      intro a _
      rw [hF]
      rfl
    rw [hid]

/-- C8 witness: listing the two-record image with no filter prints exactly the
two names "a" and "b" in on-disk order. -/
theorem list_mode_output_witness :
    RunResult.listed ⟨0, [[97], [98]], [], .noErr, none⟩ =
      [] ++ (visitedOffs listCfg 64 3 4294967040).map (nameAt listCfg.mem) :=
  (list_mode_output listCfg 64 3 4294967040 []
    ⟨0, [[97], [98]], [], .noErr, none⟩ rfl rfl (by decide)).2 rfl

/-- C9 counterexample: an unknown option is reported by getopt_long as the code
'?', which cbfs.c handles in the same case label as -h and -?, printing usage
and exiting with code 0 — not with failure as the claim states. -/
theorem cli_unknown_option_counterexample :
    cliMain [GetoptEv.q] 0 false = CliOut.usageOk ∧
    cliExit (cliMain [GetoptEv.q] 0 false) = some 0 :=
  ⟨rfl, rfl⟩

/-- C9 (amended): an empty command line or one selecting no operation prints
usage and exits 1; excess positional arguments exit 1 (with an excess-arguments
message rather than the usage text); -h and -? and --help print usage and exit
0; an unknown option is indistinguishable from -? at the getopt interface and
therefore also prints usage and exits 0, not 1. -/
theorem cli_usage_behavior (args : List GetoptEv) (npos : Nat) :
    cliMain args npos true = .usageErr ∧
    ((∀ ev ∈ args, ev = GetoptEv.v ∨ ∃ a, ev = GetoptEv.t a) →
      cliMain args npos false = .usageErr) ∧
    ((GetoptEv.h ∈ args ∨ GetoptEv.q ∈ args) →
      cliMain args npos false = .usageOk) ∧
    ((GetoptEv.l ∈ args ∨ ∃ a, GetoptEv.r a ∈ args) → GetoptEv.h ∉ args →
      GetoptEv.q ∉ args → npos ≠ 0 → cliMain args npos false = .excessErr) := by
  refine ⟨rfl, ?_, ?_, ?_⟩
  · intro hall
    show cliLoop false none none args npos = .usageErr
    exact cliLoop_only_vt npos args none hall
  · intro h
    show cliLoop false none none args npos = .usageOk
    exact cliLoop_help npos args false none none h
  · intro hop hh hq hnp
    show cliLoop false none none args npos = .excessErr
    apply cliLoop_excess npos hnp args false none none hh hq
    rcases hop with h | h
    · exact Or.inr (Or.inr (Or.inl h))
    · exact Or.inr (Or.inr (Or.inr h))

/-- C9 amended witness: -l with 3 excess positional arguments exits via the
excess-arguments error. -/
theorem cli_usage_behavior_witness :
    cliMain [GetoptEv.l] 3 false = CliOut.excessErr :=
  (cli_usage_behavior [GetoptEv.l] 3).2.2.2 (Or.inl (by decide)) (by decide)
    (by decide) (by decide)

/-- C10: the header's version field is decoded but never validated: overwriting
the version bytes of any image with an arbitrary value (the footer left intact)
leaves the located header address and the decoded magic unchanged, the decoded
version becomes that arbitrary value, and whether the image is rejected as
header-not-found is unchanged — acceptance depends on the magic test alone. -/
theorem version_not_validated (cfg : WalkCfg) (fuel v : Nat) (hv : v < U32)
    (hsep : headerOff cfg.mem + 8 ≤ endAddr - 4) :
    headerOff (setVersion cfg.mem (headerOff cfg.mem) v) = headerOff cfg.mem ∧
    (readHeader (setVersion cfg.mem (headerOff cfg.mem) v)
      (headerOff cfg.mem)).version = v ∧
    (readHeader (setVersion cfg.mem (headerOff cfg.mem) v)
      (headerOff cfg.mem)).magic = (readHeader cfg.mem (headerOff cfg.mem)).magic ∧
    isHeaderReject (cbfsMain
      { cfg with mem := setVersion cfg.mem (headerOff cfg.mem) v } fuel) =
      isHeaderReject (cbfsMain cfg fuel) := by
  have hle : readLE32 (setVersion cfg.mem (headerOff cfg.mem) v) (endAddr - 4) =
      readLE32 cfg.mem (endAddr - 4) := by
    unfold readLE32
    rw [setVersion_outside _ _ _ _ (Or.inr (by omega)),
      setVersion_outside _ _ _ _ (Or.inr (by omega)),
      setVersion_outside _ _ _ _ (Or.inr (by omega)),
      setVersion_outside _ _ _ _ (Or.inr (by omega))]
  have h1 : headerOff (setVersion cfg.mem (headerOff cfg.mem) v) =
      headerOff cfg.mem := headerOff_congr _ _ hle
  have hmg : (readHeader (setVersion cfg.mem (headerOff cfg.mem) v)
      (headerOff cfg.mem)).magic =
      (readHeader cfg.mem (headerOff cfg.mem)).magic := by
    show readBE32 (setVersion cfg.mem (headerOff cfg.mem) v) (headerOff cfg.mem) =
      readBE32 cfg.mem (headerOff cfg.mem)
    unfold readBE32
    rw [setVersion_outside _ _ _ _ (Or.inl (by omega)),
      setVersion_outside _ _ _ _ (Or.inl (by omega)),
      setVersion_outside _ _ _ _ (Or.inl (by omega)),
      setVersion_outside _ _ _ _ (Or.inl (by omega))]
  refine ⟨h1, ?_, hmg, ?_⟩
  · show readBE32 (setVersion cfg.mem (headerOff cfg.mem) v)
      (headerOff cfg.mem + 4) = v
    exact setVersion_readBE32_version cfg.mem (headerOff cfg.mem) v hv
  · simp only [cbfsMain, startOff]
    rw [h1, hmg]
    by_cases hmagic : (readHeader cfg.mem (headerOff cfg.mem)).magic = 0x4F524243
    · rw [if_pos hmagic, if_pos hmagic, walkFuel_not_headerReject,
        walkFuel_not_headerReject]
    · rw [if_neg hmagic, if_neg hmagic]

/-- C10 witness: bumping oobMem's version field to 0x12345678 changes nothing
about header acceptance. -/
theorem version_not_validated_witness :
    headerOff (setVersion oobCfg.mem (headerOff oobCfg.mem) 305419896) =
      headerOff oobCfg.mem ∧
    (readHeader (setVersion oobCfg.mem (headerOff oobCfg.mem) 305419896)
      (headerOff oobCfg.mem)).version = 305419896 ∧
    (readHeader (setVersion oobCfg.mem (headerOff oobCfg.mem) 305419896)
      (headerOff oobCfg.mem)).magic =
      (readHeader oobCfg.mem (headerOff oobCfg.mem)).magic ∧
    isHeaderReject (cbfsMain
      { oobCfg with mem := setVersion oobCfg.mem (headerOff oobCfg.mem) 305419896 }
      2) = isHeaderReject (cbfsMain oobCfg 2) :=
  version_not_validated oobCfg 2 305419896 (by decide) (by decide)

end Flashtools
